import Mathlib

/-!
Verification development for the RUPP-style SNL generator
(`backend/app/rupp_integration/rupp_processor.py`, class `FixedRUPPProcessor`).

Text is modelled as `List Char` (`Txt`).  Python string operations used by the
processor (`str.lower`, `str.replace`, `str.split`, `str.strip`, `in`,
`str.find`, and the specific regular expressions appearing in the source) are
embedded as total, structurally recursive Lean functions so that every
definition evaluates inside the kernel.
-/

set_option maxRecDepth 40000

abbrev Txt := List Char

/-- Shorthand turning a string literal into the `List Char` text model. -/
def lc (s : String) : Txt := s.data

/-- The apostrophe character, used by the contraction table. -/
def apos : Char := Char.ofNat 39

/-- Model of the characters matched by the regex class `\s` (and `str.strip`). -/
def isWsChar (c : Char) : Bool :=
  c == ' ' || c == '\t' || c == '\n' || c == '\r'

/-- Model of the regex class `\w`: ASCII letters, digits and underscore. -/
def isWordChar (c : Char) : Bool :=
  decide (97 ≤ c.toNat ∧ c.toNat ≤ 122) ||
  decide (65 ≤ c.toNat ∧ c.toNat ≤ 90) ||
  decide (48 ≤ c.toNat ∧ c.toNat ≤ 57) ||
  c == '_'

/-- ASCII uppercase test (regex class `[A-Z]`). -/
def isUpperChar (c : Char) : Bool := decide (65 ≤ c.toNat ∧ c.toNat ≤ 90)

/-- ASCII lowercase test (regex class `[a-z]`). -/
def isLowerChar (c : Char) : Bool := decide (97 ≤ c.toNat ∧ c.toNat ≤ 122)

/-- ASCII digit test (`str.isdigit` on the character level). -/
def isDigitChar (c : Char) : Bool := decide (48 ≤ c.toNat ∧ c.toNat ≤ 57)

/-- Model of `str.lower` at the character level (ASCII case folding). -/
def lowerChar (c : Char) : Char :=
  if 65 ≤ c.toNat ∧ c.toNat ≤ 90 then Char.ofNat (c.toNat + 32) else c

/-- Model of `str.lower`. -/
def lowerTxt (s : Txt) : Txt := s.map lowerChar

/-- Auxiliary scanner for `replaceSub`; `skip` counts pattern characters still
to be consumed after a match, keeping the recursion structural. -/
def replAux (p r : Txt) : Txt → Nat → Txt
  | [], _ => []
  | _ :: cs, n + 1 => replAux p r cs n
  | c :: cs, 0 =>
    if p.isPrefixOf (c :: cs) && !p.isEmpty then
      r ++ replAux p r cs (p.length - 1)
    else
      c :: replAux p r cs 0

/-- Model of Python `s.replace(p, r)`: replace every non-overlapping occurrence
of `p` in `s` by `r`, scanning left to right. -/
def replaceSub (p r s : Txt) : Txt := replAux p r s 0

/-- Model of the Python substring test `p in s`. -/
def containsSub (s p : Txt) : Bool :=
  match s with
  | [] => p.isEmpty
  | _ :: cs => p.isPrefixOf s || containsSub cs p

/-- Auxiliary scanner for `splitOnSub`, with a skip counter for the separator
characters and an accumulator for the current (reversed) piece. -/
def splitAux (sep : Txt) : Txt → Nat → Txt → List Txt
  | [], _, acc => [acc.reverse]
  | _ :: cs, n + 1, acc => splitAux sep cs n acc
  | c :: cs, 0, acc =>
    if sep.isPrefixOf (c :: cs) && !sep.isEmpty then
      acc.reverse :: splitAux sep cs (sep.length - 1) []
    else
      splitAux sep cs 0 (c :: acc)

/-- Model of Python `s.split(sep)` for a non-empty separator `sep`. -/
def splitOnSub (sep s : Txt) : List Txt := splitAux sep s 0 []

/-- Model of Python `s.find(p)`: index of the first occurrence of `p` in `s`,
or `none` when `p` does not occur (Python returns `-1` there). -/
def findSub (s p : Txt) : Option Nat :=
  match s with
  | [] => if p.isEmpty then some 0 else none
  | _ :: cs =>
    if p.isPrefixOf s then some 0
    else (findSub cs p).map (· + 1)

/-- Drop trailing characters satisfying `q` (used by the model of `str.strip`). -/
def dropEndIf (q : Char → Bool) : Txt → Txt
  | [] => []
  | c :: cs =>
    match dropEndIf q cs with
    | [] => if q c then [] else [c]
    | d :: ds => c :: d :: ds

/-- Model of Python `s.strip()`: remove leading and trailing whitespace. -/
def stripTxt (s : Txt) : Txt := dropEndIf isWsChar (s.dropWhile isWsChar)

/-- Model of `re.sub(r'\s+', ' ', s)`: each maximal whitespace run becomes a
single space. -/
def squeezeWs : Txt → Txt
  | [] => []
  | [c] => [if isWsChar c then ' ' else c]
  | c :: d :: rest =>
    if isWsChar c && isWsChar d then squeezeWs (d :: rest)
    else (if isWsChar c then ' ' else c) :: squeezeWs (d :: rest)

/-- Boolean test that `p` is an initial segment of `s` (`str.startswith`). -/
def startsW (s p : Txt) : Bool := p.isPrefixOf s

/-- Boolean test that `p` is a final segment of `s` (`str.endswith`). -/
def endsW (s p : Txt) : Bool := p.reverse.isPrefixOf s.reverse

/-- Keep the first occurrence of every element, dropping later duplicates
(the semantics of Python `dict.fromkeys`). -/
def dedupFirstAux (seen : List Txt) : List Txt → List Txt
  | [] => []
  | x :: xs =>
    if seen.contains x then dedupFirstAux seen xs
    else x :: dedupFirstAux (x :: seen) xs

/-- Order-preserving first-occurrence deduplication. -/
def dedupFirst (l : List Txt) : List Txt := dedupFirstAux [] l

/-- Model of Python `s.split()` (no separator): whitespace-delimited words,
with no empty pieces.  The accumulator holds the current word reversed. -/
def splitWsAux : Txt → Txt → List Txt
  | [], acc => if acc.isEmpty then [] else [acc.reverse]
  | c :: cs, acc =>
    if isWsChar c then
      if acc.isEmpty then splitWsAux cs []
      else acc.reverse :: splitWsAux cs []
    else splitWsAux cs (c :: acc)

/-- Model of Python `s.split()` with no arguments. -/
def splitWs (s : Txt) : List Txt := splitWsAux s []

/-- Lexicographic comparison of texts by character code point, the order used
by Python `sorted` on strings. -/
def txtLtB : Txt → Txt → Bool
  | [], [] => false
  | [], _ :: _ => true
  | _ :: _, [] => false
  | a :: as, b :: bs =>
    decide (a.toNat < b.toNat) || (a == b && txtLtB as bs)

/-- Insert into a strictly sorted list, skipping exact duplicates; together
with a fold this models Python `sorted(set(...))`. -/
def insertSorted (x : Txt) : List Txt → List Txt
  | [] => [x]
  | y :: ys =>
    if x = y then y :: ys
    else if txtLtB x y then x :: y :: ys
    else y :: insertSorted x ys

/-- Model of Python `sorted(set(l))` for a list of strings. -/
def sortDedup (l : List Txt) : List Txt := l.foldl (fun acc x => insertSorted x acc) []

/-- Decimal numeral of a natural number, for the `f"{i}. {sentence}"` labels. -/
def natToTxt (n : Nat) : Txt := Nat.toDigits 10 n

-- basic sanity checks of the helpers (concrete evaluations)
example : replaceSub (lc "ab") (lc "x") (lc "cababc") = lc "cxxc" := by decide
example : splitOnSub (lc ", ") (lc "a, b, c") = [lc "a", lc "b", lc "c"] := by decide
example : splitOnSub (lc " then ") (lc "x then y") = [lc "x", lc "y"] := by decide
example : stripTxt (lc "  ab c  ") = lc "ab c" := by decide
example : squeezeWs (lc "a  b   c") = lc "a b c" := by decide
example : findSub (lc "abcab") (lc "ca") = some 2 := by decide
example : splitWs (lc "  ab  c ") = [lc "ab", lc "c"] := by decide
example : sortDedup [lc "user", lc "system", lc "user", lc "admin"] =
    [lc "admin", lc "system", lc "user"] := by decide
example : lowerTxt (lc "If A, Then B!") = lc "if a, then b!" := by decide
example : dedupFirst [lc "b", lc "a", lc "b", lc "c"] = [lc "b", lc "a", lc "c"] := by decide
example : natToTxt 12 = lc "12" := by decide
example : endsW (lc "abc.") (lc ".") && startsW (lc "abc.") (lc "ab") := by decide

/-!
Embedding of `FixedRUPPProcessor` (rupp_processor.py).  Python string values
become `Txt`; f-strings become explicit concatenations; the anchored regular
expressions of the source are modelled by dedicated functions right above the
definition that uses them.
-/

/-- Contraction table of `apply_preprocessing`, in source (insertion) order. -/
def contractions : List (Txt × Txt) :=
  [ (lc "can" ++ [apos] ++ lc "t", lc "cannot"),
    (lc "won" ++ [apos] ++ lc "t", lc "will not"),
    (lc "don" ++ [apos] ++ lc "t", lc "do not"),
    (lc "isn" ++ [apos] ++ lc "t", lc "is not"),
    (lc "aren" ++ [apos] ++ lc "t", lc "are not"),
    (lc "wasn" ++ [apos] ++ lc "t", lc "was not"),
    (lc "weren" ++ [apos] ++ lc "t", lc "were not"),
    (lc "haven" ++ [apos] ++ lc "t", lc "have not"),
    (lc "hasn" ++ [apos] ++ lc "t", lc "has not"),
    (lc "wouldn" ++ [apos] ++ lc "t", lc "would not"),
    (lc "shouldn" ++ [apos] ++ lc "t", lc "should not"),
    (lc "couldn" ++ [apos] ++ lc "t", lc "could not") ]

/-- Characters kept by `re.sub(r'[^\w\s\.,\-]', '', text)`. -/
def allowedChar (c : Char) : Bool :=
  isWordChar c || isWsChar c || c == '.' || c == ',' || c == '-'

/-- Embedding of `apply_preprocessing`: lowercase, `&`→`and`, expand the
contraction table, strip disallowed punctuation, collapse whitespace, trim. -/
def apply_preprocessing (text : Txt) : Txt :=
  let t1 := lowerTxt text
  let t2 := replaceSub (lc "&") (lc "and") t1
  let t3 := contractions.foldl (fun t pr => replaceSub pr.1 pr.2 t) t2
  let t4 := t3.filter allowedChar
  stripTxt (squeezeWs t4)

/-- The strict actor vocabulary of `identify_actors_enhanced`. -/
def valid_actors : List Txt :=
  [lc "system", lc "user", lc "administrator", lc "librarian", lc "member", lc "guest"]

/-- Embedding of `re.sub(r'[^a-z]', '', word)`. -/
def cleanActorWord (w : Txt) : Txt := w.filter isLowerChar

/-- Embedding of `identify_actors_enhanced`: per-word vocabulary matches plus
whole-text keyword matches, returned as `sorted(set(...))`. -/
def identify_actors_enhanced (description : Txt) : List Txt :=
  let text_lower := lowerTxt description
  let words := splitWs text_lower
  let wordActors := words.filterMap (fun w =>
    let cw := cleanActorWord w
    if valid_actors.contains cw then some cw else none)
  let keywordActors :=
    (if containsSub text_lower (lc "system") then [lc "system"] else []) ++
    (if containsSub text_lower (lc "user") then [lc "user"] else []) ++
    (if containsSub text_lower (lc "member") then [lc "member"] else []) ++
    (if containsSub text_lower (lc "librarian") then [lc "librarian"] else []) ++
    (if containsSub text_lower (lc "administrator") || containsSub text_lower (lc "admin")
       then [lc "administrator"] else []) ++
    (if containsSub text_lower (lc "guest") then [lc "guest"] else [])
  sortDedup (wordActors ++ keywordActors)

/-- Context test for the sentence-splitting regex
`(?<!\w\.\w.)(?<![A-Z][a-z]\.)(?<=\.|\?|\!)\s+`; `ctx` is the reversed list of
characters before the candidate split position. -/
def splitCond (ctx : Txt) : Bool :=
  match ctx with
  | [] => false
  | p1 :: rest =>
    (p1 == '.' || p1 == '?' || p1 == '!') &&
    !(match rest with
      | p2 :: p3 :: p4 :: _ => isWordChar p4 && p3 == '.' && isWordChar p2
      | _ => false) &&
    !(match rest with
      | p2 :: p3 :: _ => isUpperChar p3 && isLowerChar p2 && p1 == '.'
      | _ => false)

/-- Scanner for the primary sentence split: `ctx` is the reversed prefix of the
whole input (regex lookbehinds read it), `cur` the reversed current piece, and
`inWs` records that the matched whitespace run is still being consumed. -/
def primAux (ctx cur : Txt) (inWs : Bool) : Txt → List Txt
  | [] => [cur.reverse]
  | c :: cs =>
    if inWs && isWsChar c then primAux (c :: ctx) cur true cs
    else if isWsChar c && splitCond ctx then
      cur.reverse :: primAux (c :: ctx) [] true cs
    else primAux (c :: ctx) (c :: cur) false cs

/-- Embedding of `re.split(r'(?<!\w\.\w.)(?<![A-Z][a-z]\.)(?<=\.|\?|\!)\s+', s)`. -/
def primarySplit (s : Txt) : List Txt := primAux [] [] false s

/-- Action verbs that trigger compound-sentence splitting on " and ". -/
def action_verbs : List Txt :=
  [lc "clicks", lc "enters", lc "displays", lc "shows", lc "checks", lc "validates",
   lc "asks", lc "opens", lc "closes", lc "selects", lc "returns", lc "issues",
   lc "reserves", lc "adds", lc "removes", lc "updates", lc "stores", lc "retrieves",
   lc "prompts"]

/-- Subject carried over a compound split, from the first part (lowercased),
in the fixed priority order of the source. -/
def detectSubject (first_part : Txt) : Option Txt :=
  if containsSub first_part (lc "system") then some (lc "The system")
  else if containsSub first_part (lc "member") then some (lc "The member")
  else if containsSub first_part (lc "user") then some (lc "The user")
  else if containsSub first_part (lc "librarian") then some (lc "The librarian")
  else if containsSub first_part (lc "administrator") then some (lc "The administrator")
  else if containsSub first_part (lc "guest") then some (lc "The guest")
  else none

/-- One entry of the `for i, part in enumerate(and_parts)` loop. -/
def andPartEntry (subject : Option Txt) (i : Nat) (part0 : Txt) : List Txt :=
  let part := stripTxt part0
  if part.length > 3 then
    if i == 0 then [part]
    else
      match subject with
      | some subj =>
        if !(startsW (lowerTxt part) (lc "the ") || startsW (lowerTxt part) (lc "a ") ||
             startsW (lowerTxt part) (lc "an ")) then
          [subj ++ lc " " ++ part]
        else [part]
      | none => [part]
  else []

/-- Extra candidates contributed by one primary sentence: the sentence itself,
semicolon sub-clauses, compound-" and " parts, and " then " parts. -/
def enhanceSentence (sentence : Txt) : List Txt :=
  let semis :=
    if containsSub sentence (lc ";") then
      (splitOnSub (lc ";") sentence).filterMap (fun s =>
        let t := stripTxt s
        if !t.isEmpty && t.length > 3 then some t else none)
    else []
  let ands :=
    if containsSub (lowerTxt sentence) (lc " and ") &&
       action_verbs.any (fun v => containsSub (lowerTxt sentence) v) then
      let and_parts := splitOnSub (lc " and ") sentence
      let subject := detectSubject (lowerTxt (and_parts.headD []))
      (and_parts.enum.map (fun p => andPartEntry subject p.1 p.2)).flatten
    else []
  let thens :=
    if containsSub (lowerTxt sentence) (lc " then ") then
      (splitOnSub (lc " then ") sentence).filterMap (fun p =>
        let t := stripTxt p
        if t.length > 3 then some t else none)
    else []
  sentence :: (semis ++ ands ++ thens)

/-- Boilerplate noise phrases dropped by the final sentence filter. -/
def skip_phrases : List Txt :=
  [lc "the details include", lc "details include", lc "include the total",
   lc "total number of", lc "date of issue", lc "return date", lc "fine to be paid"]

/-- ASCII letter test (`char.isalpha()`). -/
def isAlphaChar (c : Char) : Bool := isLowerChar c || isUpperChar c

/-- Final permissive filter of `extract_sentences_comprehensive`. -/
def finalSentenceFilter (sentence : Txt) : Option Txt :=
  let s := stripTxt sentence
  if s.length > 3 &&
     !(!s.isEmpty && s.all isDigitChar) &&
     s.any isAlphaChar &&
     !(skip_phrases.any (fun ph => containsSub (lowerTxt s) ph)) then some s
  else none

/-- Embedding of `extract_sentences_comprehensive`. -/
def extract_sentences_comprehensive (text : Txt) : List Txt :=
  let sentences := (primarySplit text).filterMap (fun part =>
    let s := stripTxt part
    if s.length > 3 then some s else none)
  let enhanced := (sentences.map enhanceSentence).flatten
  let uniques := dedupFirst enhanced
  uniques.filterMap finalSentenceFilter

/-- The closed template enumeration; assignment is total (`Default` always
matches). -/
inductive TemplateKind
  | Conditional
  | When
  | SystemCapability
  | UserAction
  | Modal
  | Feature
  | State
  | Validation
  | Default
deriving DecidableEq, Repr

/-- Verb set of classifier rule 3 (system capabilities). -/
def capability_verbs : List Txt :=
  [lc "display", lc "show", lc "validate", lc "process", lc "store", lc "retrieve",
   lc "calculate", lc "generate", lc "check", lc "ask", lc "prompt", lc "open",
   lc "close", lc "update", lc "enter", lc "select"]

/-- Interaction verbs of classifier rule 4 (user actions). -/
def interaction_verbs : List Txt :=
  [lc "click", lc "enter", lc "select", lc "view", lc "browse", lc "search"]

/-- Modal verbs of classifier rule 5. -/
def modal_verbs_classify : List Txt :=
  [lc "should", lc "must", lc "can", lc "will", lc "shall", lc "may"]

/-- Feature words of classifier rule 6. -/
def feature_words_classify : List Txt :=
  [lc "feature", lc "function", lc "capability", lc "service"]

/-- State words of classifier rule 7. -/
def state_words_classify : List Txt :=
  [lc "available", lc "ready", lc "logged in", lc "valid", lc "correct"]

/-- Validation words of classifier rule 8. -/
def validation_words_classify : List Txt :=
  [lc "validate", lc "check", lc "verify", lc "confirm"]

/-- The ordered if/elif template dispatch of `apply_rupp_templates_enhanced`,
as a classifier: the first matching rule wins. -/
def classifyTemplate (sentence : Txt) (actors : List Txt) : TemplateKind :=
  let sl := lowerTxt sentence
  if containsSub sl (lc "if") && (containsSub sl (lc "then") || containsSub sentence (lc ",")) then
    .Conditional
  else if startsW sl (lc "when ") then .When
  else if capability_verbs.any (fun v => containsSub sl v) then .SystemCapability
  else if actors.any (fun a => !(a == lc "system") && containsSub sl a) ||
          interaction_verbs.any (fun v => containsSub sl v) then .UserAction
  else if modal_verbs_classify.any (fun m => containsSub sl m) then .Modal
  else if feature_words_classify.any (fun w => containsSub sl w) then .Feature
  else if state_words_classify.any (fun w => containsSub sl w) then .State
  else if validation_words_classify.any (fun w => containsSub sl w) then .Validation
  else .Default

/-- First alternative of `^(the )?system (shall|should|will|can)` after
`system `, in the alternation order of the regex. -/
def matchModalAfterSystem (t : Txt) : Option Txt :=
  if startsW t (lc "shall") then some (t.drop 5)
  else if startsW t (lc "should") then some (t.drop 6)
  else if startsW t (lc "will") then some (t.drop 4)
  else if startsW t (lc "can") then some (t.drop 3)
  else none

/-- Embedding of `re.sub(r'^(the )?system (shall|should|will|can)', '', t)`. -/
def stripLeadSystemModal (t : Txt) : Txt :=
  let afterThe :=
    if startsW t (lc "the ") then
      if startsW (t.drop 4) (lc "system ") then matchModalAfterSystem (t.drop 11) else none
    else none
  match afterThe with
  | some rest => rest
  | none =>
    match (if startsW t (lc "system ") then matchModalAfterSystem (t.drop 7) else none) with
    | some rest => rest
    | none => t

/-- Scanner for `re.sub(r'(the )?system', '', t)`: removes every occurrence,
preferring the longer `the system` match at each position. -/
def removeSysAux : Txt → Nat → Txt
  | [], _ => []
  | _ :: cs, n + 1 => removeSysAux cs n
  | c :: cs, 0 =>
    if (lc "the system").isPrefixOf (c :: cs) then removeSysAux cs 9
    else if (lc "system").isPrefixOf (c :: cs) then removeSysAux cs 5
    else c :: removeSysAux cs 0

/-- Embedding of `re.sub(r'(the )?system', '', t)` (unanchored, all matches). -/
def removeSystemAll (t : Txt) : Txt := removeSysAux t 0

/-- The source next runs `re.sub` replacing a leading `asks?|shows?|displays?|checks?`
match by the match itself (the replacement is the whole group), which changes
nothing; modelled as the identity. -/
def reinsertLeadVerb (t : Txt) : Txt := t

/-- Embedding of `process_conditional_template`.  The `parts[1]` lookup that
would raise `IndexError` when `' then '` is absent is modelled with `get?`;
the inner `except` then falls through to the final fallback return. -/
def process_conditional_template (sentence : Txt) : Txt :=
  let sl := lowerTxt sentence
  if containsSub sl (lc "if") && containsSub sl (lc "then") then
    let parts := splitOnSub (lc " then ") sl
    match parts.get? 1 with
    | none => lc "The system shall handle the condition: " ++ sentence ++ lc "."
    | some p1 =>
      let if_part := stripTxt (replaceSub (lc "if") [] (parts.headD []))
      let tp0 := stripTxt p1
      let tp1 := stripTxt (stripLeadSystemModal tp0)
      let tp2 := stripTxt (removeSystemAll tp1)
      let then_part := reinsertLeadVerb tp2
      if !then_part.isEmpty then
        lc "If " ++ if_part ++ lc ", then the system shall " ++ then_part ++ lc "."
      else
        lc "If " ++ if_part ++ lc ", then the system shall respond appropriately."
  else if containsSub sl (lc "if") && containsSub sentence (lc ",") then
    let parts := splitOnSub (lc ",") sentence
    let if_part := stripTxt (replaceSub (lc "if") [] (lowerTxt (parts.headD [])))
    let tp0 := stripTxt (List.intercalate (lc ",") parts.tail)
    let tp1 := stripTxt (stripLeadSystemModal tp0)
    let then_part := stripTxt (removeSystemAll tp1)
    if !then_part.isEmpty then
      lc "If " ++ if_part ++ lc ", then the system shall " ++ then_part ++ lc "."
    else
      lc "If " ++ if_part ++ lc ", then the system shall respond appropriately."
  else
    lc "The system shall handle the condition: " ++ sentence ++ lc "."

/-- Embedding of `process_when_template` (the `try` body is total, so the
`except` fallback is unreachable). -/
def process_when_template (sentence : Txt) : Txt :=
  let when_part := stripTxt (sentence.drop 5)
  lc "When " ++ when_part ++ lc ", the system shall be able to respond appropriately."

/-- Verb-variant to canonical base-verb table of
`process_system_capability_template`, in source (insertion) order. -/
def capability_verb_map : List (Txt × Txt) :=
  [ (lc "displays", lc "display"), (lc "display", lc "display"),
    (lc "shows", lc "display"), (lc "show", lc "display"),
    (lc "validates", lc "validate"), (lc "validate", lc "validate"),
    (lc "checks", lc "validate"), (lc "check", lc "validate"),
    (lc "processes", lc "process"), (lc "process", lc "process"),
    (lc "handles", lc "process"), (lc "handle", lc "process"),
    (lc "stores", lc "store"), (lc "store", lc "store"),
    (lc "saves", lc "store"), (lc "save", lc "store"),
    (lc "retrieves", lc "retrieve"), (lc "retrieve", lc "retrieve"),
    (lc "fetches", lc "retrieve"), (lc "fetch", lc "retrieve"),
    (lc "asks", lc "ask"), (lc "ask", lc "ask"),
    (lc "prompts", lc "prompt"), (lc "prompt", lc "prompt"),
    (lc "opens", lc "open"), (lc "open", lc "open"),
    (lc "closes", lc "close"), (lc "close", lc "close"),
    (lc "updates", lc "update"), (lc "update", lc "update"),
    (lc "enters", lc "accept"), (lc "enter", lc "accept") ]

/-- Embedding of `re.sub(r'^the (system|member|user|librarian|administrator|guest)', '', t)`. -/
def stripLeadTheActor (t : Txt) : Txt :=
  if startsW t (lc "the system") then t.drop 10
  else if startsW t (lc "the member") then t.drop 10
  else if startsW t (lc "the user") then t.drop 8
  else if startsW t (lc "the librarian") then t.drop 13
  else if startsW t (lc "the administrator") then t.drop 17
  else if startsW t (lc "the guest") then t.drop 9
  else t

/-- First entry of `capability_verb_map` whose variant occurs in `s`. -/
def findCapabilityVerb : List (Txt × Txt) → Txt → Option (Txt × Txt)
  | [], _ => none
  | (variant, base) :: rest, s =>
    if containsSub s variant then some (variant, base) else findCapabilityVerb rest s

/-- Embedding of `re.sub(r'^(s\s|ing\s)', '', t)`. -/
def stripSIng (t : Txt) : Txt :=
  match t with
  | 's' :: c2 :: rest => if isWsChar c2 then rest else t
  | 'i' :: 'n' :: 'g' :: c4 :: rest => if isWsChar c4 then rest else t
  | _ => t

/-- Embedding of `re.sub(r'^\s*the\s+', 'the ', t)`. -/
def normalizeLeadThe (t : Txt) : Txt :=
  let u := t.dropWhile isWsChar
  if startsW u (lc "the") then
    match u.drop 3 with
    | c :: rest =>
      if isWsChar c then lc "the " ++ (c :: rest).dropWhile isWsChar else t
    | [] => t
  else t

/-- Verb-specific object shaping of `process_system_capability_template`. -/
def shapeAfterVerb (base after : Txt) : Txt :=
  if base == lc "ask" || base == lc "prompt" then
    if !containsSub after (lc "to") then lc "the user to " ++ after else after
  else if base == lc "display" then
    if !startsW after (lc "the ") then lc "the " ++ after else after
  else if base == lc "validate" then
    if !(startsW after (lc "the ") || startsW after (lc "that ")) then lc "the " ++ after
    else after
  else after

/-- Embedding of `process_system_capability_template`.  The `except` branch of
the source (returning `... {base_verb} appropriately.`) is kept for the
unreachable case in which the found variant has no index. -/
def process_system_capability_template (sentence : Txt) : Txt :=
  let sl := stripTxt (lowerTxt sentence)
  let sentence_clean := stripTxt (stripLeadTheActor sl)
  match findCapabilityVerb capability_verb_map sentence_clean with
  | some (variant, base) =>
    match findSub sentence_clean variant with
    | none => lc "The system shall be able to " ++ base ++ lc " appropriately."
    | some idx =>
      let after0 := stripTxt (sentence_clean.drop (idx + variant.length))
      let after1 := stripTxt (stripSIng after0)
      let after := normalizeLeadThe after1
      if !after.isEmpty then
        lc "The system shall be able to " ++ base ++ lc " " ++ shapeAfterVerb base after ++ lc "."
      else
        lc "The system shall be able to " ++ base ++ lc " the required information."
  | none => lc "The system shall be able to " ++ sentence_clean ++ lc "."

/-- Remainder after a leading `word` followed by `\s+`, or `none` when the
anchored pattern does not match. -/
def afterWordWs (w t : Txt) : Option Txt :=
  if startsW t w then
    match t.drop w.length with
    | c :: rest => if isWsChar c then some ((c :: rest).dropWhile isWsChar) else none
    | [] => none
  else none

/-- First alternative of an anchored `(w1|w2|...)\s+` pattern that matches. -/
def firstAfterWordWs (ws : List Txt) (t : Txt) : Option Txt :=
  match ws with
  | [] => none
  | w :: rest =>
    match afterWordWs w t with
    | some r => some r
    | none => firstAfterWordWs rest t

/-- Embedding of one anchored `re.sub(r'^(alt1|alt2|...)\s+', rep, t)` step. -/
def canonVerb (alts : List Txt) (rep : Txt) (t : Txt) : Txt :=
  match firstAfterWordWs alts t with
  | some r => rep ++ r
  | none => t

/-- First non-`system` actor of the actor list occurring in the sentence. -/
def findUserActor : List Txt → Txt → Option Txt
  | [], _ => none
  | a :: rest, s =>
    if !(a == lc "system") && containsSub s a then some a else findUserActor rest s

/-- Noun cues that trigger a leading `the ` in the user-action template. -/
def noun_cues : List Txt :=
  [lc "button", lc "page", lc "details", lc "information", lc "books"]

/-- Articles checked by `startswith(('the ', 'a ', 'an ', 'their ', 'his ', 'her '))`. -/
def articles_ua : List Txt :=
  [lc "the ", lc "a ", lc "an ", lc "their ", lc "his ", lc "her "]

/-- Embedding of `re.sub(r'^(the\s+)?(system\s+)?', '', t)`. -/
def subLeadTheSystem (t : Txt) : Txt :=
  let t1 := match afterWordWs (lc "the") t with | some r => r | none => t
  match afterWordWs (lc "system") t1 with | some r => r | none => t1

/-- Embedding of `process_user_action_template`.  The unreachable `except`
branch of the source is kept for the case in which the found actor has no
index. -/
def process_user_action_template (sentence : Txt) (actors : List Txt) : Txt :=
  let sl := stripTxt (lowerTxt sentence)
  let sentence_clean := match afterWordWs (lc "the") sl with | some r => r | none => sl
  match findUserActor actors sentence_clean with
  | some actor =>
    match findSub sentence_clean actor with
    | none => lc "The system shall provide " ++ actor ++ lc " with the ability to perform the action."
    | some idx =>
      let a0 := stripTxt (sentence_clean.drop (idx + actor.length))
      let a1 := canonVerb [lc "can", lc "will", lc "should", lc "must", lc "may"] [] a0
      let a2 := canonVerb [lc "clicks", lc "click"] (lc "click ") a1
      let a3 := canonVerb [lc "enters", lc "enter"] (lc "enter ") a2
      let a4 := canonVerb [lc "selects", lc "select"] (lc "select ") a3
      let a5 := canonVerb [lc "types", lc "type"] (lc "type ") a4
      let a6 := canonVerb [lc "views", lc "view"] (lc "view ") a5
      let a7 := canonVerb [lc "browses", lc "browse"] (lc "browse ") a6
      if !a7.isEmpty then
        let b0 := if startsW a7 (lc "on ") then stripTxt (a7.drop 3) else a7
        let b1 :=
          if !(articles_ua.any (fun ar => startsW b0 ar)) &&
             noun_cues.any (fun w => containsSub b0 w) then lc "the " ++ b0
          else b0
        lc "The system shall provide " ++ actor ++ lc " with the ability to " ++ b1 ++ lc "."
      else
        lc "The system shall provide " ++ actor ++ lc " with the required functionality."
  | none =>
    let action := stripTxt (subLeadTheSystem sentence_clean)
    if !action.isEmpty then
      lc "The system shall provide users with the ability to " ++ action ++ lc "."
    else
      lc "The system shall provide users with the required functionality."

/-- Modal search list of `process_modal_template`, in source order. -/
def modals_process : List Txt :=
  [lc "should", lc "must", lc "can", lc "will", lc "shall", lc "may",
   lc "could", lc "would"]

/-- First entry of `l` occurring as a substring of `s`. -/
def firstContained : List Txt → Txt → Option Txt
  | [], _ => none
  | m :: rest, s => if containsSub s m then some m else firstContained rest s

/-- Embedding of `process_modal_template`: the loop returns at the first modal
of the fixed list found anywhere in the lowercased sentence. -/
def process_modal_template (sentence : Txt) : Txt :=
  let sl := lowerTxt sentence
  match firstContained modals_process sl with
  | some modal =>
    match findSub sl modal with
    | none => lc "The system shall be able to " ++ sl ++ lc "."
    | some idx =>
      let after_modal := stripTxt (sentence.drop (idx + modal.length))
      lc "The system shall " ++ after_modal ++ lc "."
  | none => lc "The system shall be able to " ++ sl ++ lc "."

/-- Feature word list of `process_feature_template`, in source order. -/
def feature_words_process : List Txt :=
  [lc "feature", lc "function", lc "capability", lc "service", lc "interface",
   lc "component"]

/-- Embedding of `process_feature_template`. -/
def process_feature_template (sentence : Txt) : Txt :=
  match firstContained feature_words_process (lowerTxt sentence) with
  | some w => lc "The system shall provide the " ++ w ++ lc " described as: " ++ sentence ++ lc "."
  | none => lc "The system shall implement: " ++ sentence ++ lc "."

/-- State word list of `process_state_template`, in source order. -/
def state_words_process : List Txt :=
  [lc "available", lc "ready", lc "logged in", lc "valid", lc "correct",
   lc "stored", lc "retrieved"]

/-- Embedding of `process_state_template`. -/
def process_state_template (sentence : Txt) : Txt :=
  match firstContained state_words_process (lowerTxt sentence) with
  | some _ => lc "The system shall ensure that " ++ lowerTxt sentence ++ lc "."
  | none => lc "The system shall maintain the state: " ++ sentence ++ lc "."

/-- Validation word list of `process_validation_template`, in source order. -/
def validation_words_process : List Txt :=
  [lc "validate", lc "check", lc "verify", lc "confirm", lc "authenticate"]

/-- Embedding of `process_validation_template`. -/
def process_validation_template (sentence : Txt) : Txt :=
  let sl := lowerTxt sentence
  match firstContained validation_words_process sl with
  | some w => lc "The system shall " ++ w ++ lc " " ++ stripTxt (replaceSub w [] sl) ++ lc "."
  | none => lc "The system shall validate: " ++ sentence ++ lc "."

/-- Embedding of `process_default_template`. -/
def process_default_template (sentence : Txt) (actors : List Txt) : Txt :=
  if actors.any (fun a => !(a == lc "system") && containsSub (lowerTxt sentence) a) then
    lc "The system shall support the requirement: " ++ sentence ++ lc "."
  else
    lc "The system shall be able to " ++ lowerTxt sentence ++ lc "."

/-- Rewriter for an assigned template kind (the bodies of the if/elif branches
of `apply_rupp_templates_enhanced`). -/
def dispatchTemplate (k : TemplateKind) (sentence : Txt) (actors : List Txt) : Txt :=
  match k with
  | .Conditional => process_conditional_template sentence
  | .When => process_when_template sentence
  | .SystemCapability => process_system_capability_template sentence
  | .UserAction => process_user_action_template sentence actors
  | .Modal => process_modal_template sentence
  | .Feature => process_feature_template sentence
  | .State => process_state_template sentence
  | .Validation => process_validation_template sentence
  | .Default => process_default_template sentence actors

/-- The `if req: requirements.append(req)` guard of the source. -/
def reqList (req : Txt) : List Txt := if req.isEmpty then [] else [req]

/-- Embedding of `apply_rupp_templates_enhanced`: strip the sentence, pick the
first matching template rule (`classifyTemplate` holds the ordered if/elif
conditions verbatim), rewrite, and keep the result when non-empty. -/
def apply_rupp_templates_enhanced (sentence0 : Txt) (actors : List Txt) : List Txt :=
  let sentence := stripTxt sentence0
  reqList (dispatchTemplate (classifyTemplate sentence actors) sentence actors)

/-- The `processing_stats` block of the result dictionary. -/
structure ProcessingStats where
  total_input_sentences : Nat
  requirements_generated : Nat
  unique_requirements : Nat
  actors_identified : Nat
deriving DecidableEq, Repr

/-- The success dictionary returned by `generate_snl_from_text`. -/
structure SNLResult where
  snl_text : Txt
  actors : List Txt
  preprocessed_text : Txt
  sentences_count : Nat
  formatted_sentences : Txt
  requirements : List Txt
  original_sentences_processed : Nat
  processing_stats : ProcessingStats
deriving DecidableEq, Repr

/-- Outcome of `generate_snl_from_text`: the success dictionary, or the error
dictionary produced by the top-level `except` handler. -/
inductive GenResult
  | ok (result : SNLResult)
  | err (message : Txt)
deriving DecidableEq, Repr

/-- Embedding of `split_into_sentences` (used for `formatted_sentences`). -/
def split_into_sentences (paragraph : Txt) : Txt :=
  let sentences := primarySplit paragraph
  let formatted := sentences.enum.filterMap (fun p =>
    let s := stripTxt p.2
    if !s.isEmpty && s.length > 3 then some (natToTxt (p.1 + 1) ++ lc ". " ++ s) else none)
  List.intercalate (lc "\n") formatted

/-- The dedup-and-filter loop of step 5 of `generate_snl_from_text`: keep a
requirement when it is non-empty, unseen, and longer than 20 characters. -/
def cleanupRequirementsAux (seen : List Txt) : List Txt → List Txt
  | [] => []
  | req :: rest =>
    if !req.isEmpty && !(seen.contains req) && req.length > 20 then
      req :: cleanupRequirementsAux (req :: seen) rest
    else cleanupRequirementsAux seen rest

/-- Step 5 of `generate_snl_from_text` on the full generated list. -/
def cleanupRequirements (l : List Txt) : List Txt := cleanupRequirementsAux [] l

/-- Step 4 of `generate_snl_from_text`: all template outputs over all
extracted sentences of length (after strip) greater than 3. -/
def allGeneratedRequirements (sentences : List Txt) (actors : List Txt) : List Txt :=
  (sentences.map (fun s =>
    if (stripTxt s).length > 3 then apply_rupp_templates_enhanced s actors else [])).flatten

/-- Embedding of `generate_snl_from_text`.  Every step of the `try` body is a
total function in this model, so the `except` handler producing the error
dictionary is never reached and the result is always `GenResult.ok`. -/
def generate_snl_from_text (description : Txt) : GenResult :=
  let preprocessed_text := apply_preprocessing description
  let sentences := extract_sentences_comprehensive preprocessed_text
  let actors := identify_actors_enhanced description
  let all_requirements := allGeneratedRequirements sentences actors
  let cleaned_requirements := cleanupRequirements all_requirements
  let final_snl := List.intercalate (lc "\n") cleaned_requirements
  GenResult.ok {
    snl_text := final_snl
    actors := actors
    preprocessed_text := preprocessed_text
    sentences_count := cleaned_requirements.length
    formatted_sentences := split_into_sentences final_snl
    requirements := cleaned_requirements
    original_sentences_processed := sentences.length
    processing_stats := {
      total_input_sentences := sentences.length
      requirements_generated := all_requirements.length
      unique_requirements := cleaned_requirements.length
      actors_identified := actors.length } }

-- sanity checks of the embedding against the behaviour of the source
example : apply_preprocessing (lc "The member   can" ++ [apos] ++ lc "t login!") =
    lc "the member cannot login" := by decide
example : identify_actors_enhanced (lc "The member uses the system") =
    [lc "member", lc "system"] := by decide
example : identify_actors_enhanced (lc "Users and admins exist") =
    [lc "administrator", lc "user"] := by decide
example : process_modal_template (lc "it must run so it should stop") =
    lc "The system shall stop." := by decide
example : classifyTemplate (lc "if the password is wrong then the system should ask again.") [] =
    TemplateKind.Conditional := by decide
example : process_when_template (lc "when the user logs in") =
    lc "When the user logs in, the system shall be able to respond appropriately." := by decide
example : extract_sentences_comprehensive (lc "it must run. it must run.") =
    [lc "it must run."] := by decide
example : process_conditional_template
      (lc "if the entered information is wrong then system asks member to reenter the details") =
    lc "If the entered information is wrong, then the system shall asks member to reenter the details." := by
  decide

/-- Requirements list of a generation outcome (empty for the error case). -/
def genRequirements : GenResult → List Txt
  | .ok r => r.requirements
  | .err _ => []

/-- Stats block of a generation outcome (zeros for the error case). -/
def genStats : GenResult → ProcessingStats
  | .ok r => r.processing_stats
  | .err _ => ⟨0, 0, 0, 0⟩

/-- Success test of a generation outcome. -/
def genIsOk : GenResult → Bool
  | .ok _ => true
  | .err _ => false

/-!
C10 — empty input.
-/

/-- C10: for the empty input string, `generate_snl_from_text` returns a
successful (non-error) result with empty requirements, empty actors, and all
sentence/requirement counters zero. -/
theorem C10_empty_input_success :
    generate_snl_from_text (lc "") =
      GenResult.ok
        { snl_text := []
          actors := []
          preprocessed_text := []
          sentences_count := 0
          formatted_sentences := []
          requirements := []
          original_sentences_processed := 0
          processing_stats :=
            { total_input_sentences := 0
              requirements_generated := 0
              unique_requirements := 0
              actors_identified := 0 } } := by
  decide

/-!
C9 — fifty repetitions of one identical sentence.
-/

/-- Input of Scenario D: fifty copies of the sentence `it must run.`. -/
def c9Input : Txt := (List.replicate 50 (lc "it must run. ")).flatten

/-- C9 counterexample: on fifty repetitions of one identical sentence the
`requirements_generated` counter is 1, not 50 — duplicate sentences are
removed during extraction, before any generation attempt, so the counter does
not reflect one attempt per repeated sentence. -/
theorem C9_fifty_repeats_cex :
    ¬((genStats (generate_snl_from_text c9Input)).requirements_generated = 50) := by
  decide

/-- C9 (amended): for an input of fifty repetitions of one identical sentence
the result is successful, reports at most one unique generated requirement,
and reports exactly one raw generation attempt, because the repeated sentence
is deduplicated during extraction. -/
theorem C9_fifty_repeats :
    genIsOk (generate_snl_from_text c9Input) = true ∧
    (genStats (generate_snl_from_text c9Input)).unique_requirements ≤ 1 ∧
    (genStats (generate_snl_from_text c9Input)).requirements_generated = 1 := by
  refine ⟨by decide, by decide, by decide⟩


/-!
Basic lemmas about the text helpers.
-/

theorem prefB_iff (p s : Txt) : p.isPrefixOf s = true ↔ ∃ t, s = p ++ t := by
  induction p generalizing s with
  | nil => simp [List.isPrefixOf]
  | cons a as ih =>
    cases s with
    | nil => simp [List.isPrefixOf]
    | cons b bs =>
      simp only [List.isPrefixOf, Bool.and_eq_true, beq_iff_eq, ih, List.cons_append,
        List.cons.injEq]
      constructor
      · rintro ⟨rfl, t, rfl⟩
        exact ⟨t, rfl, rfl⟩
      · rintro ⟨t, rfl, rfl⟩
        exact ⟨rfl, t, rfl⟩

theorem prefB_append (p t : Txt) : p.isPrefixOf (p ++ t) = true :=
  (prefB_iff p (p ++ t)).mpr ⟨t, rfl⟩

theorem startsW_append (p t : Txt) : startsW (p ++ t) p = true := prefB_append p t

theorem endsW_append (p t : Txt) : endsW (t ++ p) p = true := by
  unfold endsW
  rw [List.reverse_append]
  exact prefB_append p.reverse t.reverse

theorem containsSub_iff (s p : Txt) : containsSub s p = true ↔ ∃ u v, s = u ++ p ++ v := by
  induction s with
  | nil =>
    simp only [containsSub, List.isEmpty_iff]
    constructor
    · rintro rfl
      exact ⟨[], [], rfl⟩
    · rintro ⟨u, v, h⟩
      cases u <;> cases p <;> simp_all
  | cons c cs ih =>
    simp only [containsSub, Bool.or_eq_true, prefB_iff, ih]
    constructor
    · rintro (⟨t, ht⟩ | ⟨u, v, hv⟩)
      · exact ⟨[], t, by simpa using ht⟩
      · exact ⟨c :: u, v, by simp [hv]⟩
    · rintro ⟨u, v, h⟩
      cases u with
      | nil => exact Or.inl ⟨v, by simpa using h⟩
      | cons a as =>
        simp only [List.cons_append, List.cons.injEq] at h
        exact Or.inr ⟨as, v, h.2⟩

theorem containsSub_single (s : Txt) (c : Char) : containsSub s [c] = true ↔ c ∈ s := by
  induction s with
  | nil => simp [containsSub]
  | cons d ds ih =>
    simp only [containsSub, Bool.or_eq_true, ih, List.isPrefixOf, Bool.and_eq_true,
      beq_iff_eq, List.mem_cons]
    constructor
    · rintro (⟨h, _⟩ | h)
      · exact Or.inl h
      · exact Or.inr h
    · rintro (rfl | h)
      · exact Or.inl ⟨rfl, by simp [List.isPrefixOf]⟩
      · exact Or.inr h

theorem toNat_lowerChar_upper (c : Char) (h : 65 ≤ c.toNat ∧ c.toNat ≤ 90) :
    (lowerChar c).toNat = c.toNat + 32 := by
  unfold lowerChar
  rw [if_pos h]
  unfold Char.ofNat
  split
  · rfl
  · next hh => exact absurd (Or.inl (by omega)) hh

theorem lowerChar_eq_self (c : Char) (h : ¬(65 ≤ c.toNat ∧ c.toNat ≤ 90)) :
    lowerChar c = c := by
  unfold lowerChar
  rw [if_neg h]

theorem charToNat_inj {a b : Char} (h : a.toNat = b.toNat) : a = b :=
  Char.ext (UInt32.ext h)

theorem lowerChar_toNat_out {c : Char} {n : Nat} (hn : ¬(97 ≤ n ∧ n ≤ 122))
    (h : (lowerChar c).toNat = n) : c.toNat = n := by
  by_cases hc : 65 ≤ c.toNat ∧ c.toNat ≤ 90
  · have := toNat_lowerChar_upper c hc
    omega
  · rw [lowerChar_eq_self c hc] at h
    exact h

theorem comma_of_lower_comma {s : Txt} (h : containsSub (lowerTxt s) (lc ",") = true) :
    containsSub s (lc ",") = true := by
  have h1 : ',' ∈ lowerTxt s := (containsSub_single _ _).mp h
  obtain ⟨d, hd, hld⟩ := List.mem_map.mp h1
  have hdn : d.toNat = 44 :=
    lowerChar_toNat_out (by omega) (by rw [hld]; rfl)
  have : d = ',' := charToNat_inj hdn
  subst this
  exact (containsSub_single _ _).mpr hd

/-!
C3 — classifier priority: Conditional beats Modal.
-/

/-- C3: a candidate sentence whose lowercased text contains the substring `if`
together with `then` (or a comma) and also a modal verb such as `should` is
assigned `Conditional` and never `Modal`; `classifyTemplate` holds the ordered
if/elif rules of `apply_rupp_templates_enhanced` (Conditional, When,
SystemCapability, UserAction, Modal, Feature, State, Validation, Default),
where the first matching rule wins. -/
theorem C3_conditional_beats_modal (s : Txt) (actors : List Txt)
    (h1 : containsSub (lowerTxt s) (lc "if") = true)
    (h2 : containsSub (lowerTxt s) (lc "then") = true ∨
          containsSub (lowerTxt s) (lc ",") = true)
    (_h3 : containsSub (lowerTxt s) (lc "should") = true) :
    classifyTemplate s actors = TemplateKind.Conditional ∧
    classifyTemplate s actors ≠ TemplateKind.Modal := by
  have hcond : (containsSub (lowerTxt s) (lc "if") &&
      (containsSub (lowerTxt s) (lc "then") || containsSub s (lc ","))) = true := by
    rcases h2 with h2 | h2
    · simp [h1, h2]
    · simp [h1, comma_of_lower_comma h2]
  unfold classifyTemplate
  rw [if_pos hcond]
  exact ⟨rfl, by simp⟩

/-- C3 witness: the regression sentence of the specification satisfies the
hypotheses and is classified `Conditional`. -/
theorem C3_conditional_beats_modal_witness :
    classifyTemplate (lc "If the password is wrong then the system should ask again.") [] =
      TemplateKind.Conditional := by
  exact (C3_conditional_beats_modal
    (lc "If the password is wrong then the system should ask again.") []
    (by decide) (Or.inl (by decide)) (by decide)).1

/-!
C1 — canonical shape of every requirement.
-/

/-- The canonical requirement shape of the specification: the text starts with
`If `, `When `, or `The system shall`, and ends with `.`. -/
abbrev GoodReq (r : Txt) : Prop :=
  (startsW r (lc "If ") = true ∨ startsW r (lc "When ") = true ∨
   startsW r (lc "The system shall") = true) ∧
  endsW r (lc ".") = true

theorem startsW_ext (p a t : Txt) (h : startsW a p = true) : startsW (a ++ t) p = true := by
  obtain ⟨u, rfl⟩ := (prefB_iff p a).mp h
  unfold startsW
  rw [List.append_assoc]
  exact prefB_append p (u ++ t)

theorem endsW_ext (p a t : Txt) (h : endsW a p = true) : endsW (t ++ a) p = true := by
  unfold endsW at h ⊢
  rw [List.reverse_append]
  exact startsW_ext p.reverse a.reverse t.reverse h

theorem goodReq_conditional (s : Txt) : GoodReq (process_conditional_template s) := by
  simp only [process_conditional_template]
  repeat' split
  all_goals refine ⟨?_, ?_⟩
  all_goals first
    | decide
    | exact endsW_ext _ _ _ (by decide)
    | exact Or.inl (by (repeat apply startsW_ext); decide)
    | exact Or.inr (Or.inl (by (repeat apply startsW_ext); decide))
    | exact Or.inr (Or.inr (by (repeat apply startsW_ext); decide))

theorem goodReq_when (s : Txt) : GoodReq (process_when_template s) := by
  simp only [process_when_template]
  refine ⟨Or.inr (Or.inl ?_), ?_⟩
  · repeat first | decide | apply startsW_ext
  · exact endsW_ext _ _ _ (by decide)

theorem goodReq_capability (s : Txt) : GoodReq (process_system_capability_template s) := by
  simp only [process_system_capability_template]
  repeat' split
  all_goals refine ⟨Or.inr (Or.inr ?_), ?_⟩
  all_goals first
    | decide
    | exact endsW_ext _ _ _ (by decide)
    | (repeat first | decide | apply startsW_ext)

theorem goodReq_user_action (s : Txt) (actors : List Txt) :
    GoodReq (process_user_action_template s actors) := by
  simp only [process_user_action_template]
  repeat' split
  all_goals refine ⟨Or.inr (Or.inr ?_), ?_⟩
  all_goals first
    | decide
    | exact endsW_ext _ _ _ (by decide)
    | (repeat first | decide | apply startsW_ext)

theorem goodReq_modal (s : Txt) : GoodReq (process_modal_template s) := by
  simp only [process_modal_template]
  repeat' split
  all_goals refine ⟨Or.inr (Or.inr ?_), ?_⟩
  all_goals first
    | decide
    | exact endsW_ext _ _ _ (by decide)
    | (repeat first | decide | apply startsW_ext)

theorem goodReq_feature (s : Txt) : GoodReq (process_feature_template s) := by
  simp only [process_feature_template]
  repeat' split
  all_goals refine ⟨Or.inr (Or.inr ?_), ?_⟩
  all_goals first
    | decide
    | exact endsW_ext _ _ _ (by decide)
    | (repeat first | decide | apply startsW_ext)

theorem goodReq_state (s : Txt) : GoodReq (process_state_template s) := by
  simp only [process_state_template]
  repeat' split
  all_goals refine ⟨Or.inr (Or.inr ?_), ?_⟩
  all_goals first
    | decide
    | exact endsW_ext _ _ _ (by decide)
    | (repeat first | decide | apply startsW_ext)

theorem goodReq_validation (s : Txt) : GoodReq (process_validation_template s) := by
  simp only [process_validation_template]
  repeat' split
  all_goals refine ⟨Or.inr (Or.inr ?_), ?_⟩
  all_goals first
    | decide
    | exact endsW_ext _ _ _ (by decide)
    | (repeat first | decide | apply startsW_ext)

theorem goodReq_default (s : Txt) (actors : List Txt) :
    GoodReq (process_default_template s actors) := by
  simp only [process_default_template]
  repeat' split
  all_goals refine ⟨Or.inr (Or.inr ?_), ?_⟩
  all_goals first
    | decide
    | exact endsW_ext _ _ _ (by decide)
    | (repeat first | decide | apply startsW_ext)

theorem goodReq_dispatch (k : TemplateKind) (s : Txt) (actors : List Txt) :
    GoodReq (dispatchTemplate k s actors) := by
  cases k with
  | Conditional => exact goodReq_conditional s
  | When => exact goodReq_when s
  | SystemCapability => exact goodReq_capability s
  | UserAction => exact goodReq_user_action s actors
  | Modal => exact goodReq_modal s
  | Feature => exact goodReq_feature s
  | State => exact goodReq_state s
  | Validation => exact goodReq_validation s
  | Default => exact goodReq_default s actors

theorem mem_reqList {req x : Txt} (h : req ∈ reqList x) : req = x := by
  unfold reqList at h
  split at h
  · cases h
  · simpa using h

theorem goodReq_apply_rupp {req : Txt} (s : Txt) (actors : List Txt)
    (h : req ∈ apply_rupp_templates_enhanced s actors) : GoodReq req := by
  unfold apply_rupp_templates_enhanced at h
  rw [mem_reqList h]
  exact goodReq_dispatch _ _ _

theorem mem_cleanup_sub {req : Txt} {seen l : List Txt}
    (h : req ∈ cleanupRequirementsAux seen l) : req ∈ l := by
  induction l generalizing seen with
  | nil => simp [cleanupRequirementsAux] at h
  | cons x xs ih =>
    unfold cleanupRequirementsAux at h
    split at h
    · rcases List.mem_cons.mp h with rfl | h2
      · exact List.mem_cons_self _ _
      · exact List.mem_cons_of_mem _ (ih h2)
    · exact List.mem_cons_of_mem _ (ih h)

theorem goodReq_allGenerated {req : Txt} (sentences actors : List Txt)
    (h : req ∈ allGeneratedRequirements sentences actors) : GoodReq req := by
  unfold allGeneratedRequirements at h
  obtain ⟨m, hm, hreq⟩ := List.mem_flatten.mp h
  obtain ⟨s, _, rfl⟩ := List.mem_map.mp hm
  split at hreq
  · exact goodReq_apply_rupp _ _ hreq
  · cases hreq

theorem genRequirements_eq (d : Txt) :
    genRequirements (generate_snl_from_text d) =
      cleanupRequirements
        (allGeneratedRequirements
          (extract_sentences_comprehensive (apply_preprocessing d))
          (identify_actors_enhanced d)) := by
  simp only [generate_snl_from_text, genRequirements]

/-- C1: every requirement of a successful generation result begins with one of
the literal prefixes `If `, `When `, `The system shall`, and ends with `.`. -/
theorem C1_prefix_invariant (d : Txt) (r : SNLResult) (req : Txt)
    (hok : generate_snl_from_text d = GenResult.ok r)
    (hmem : req ∈ r.requirements) :
    (startsW req (lc "If ") = true ∨ startsW req (lc "When ") = true ∨
     startsW req (lc "The system shall") = true) ∧
    endsW req (lc ".") = true := by
  have hmem2 : req ∈ cleanupRequirements
      (allGeneratedRequirements
        (extract_sentences_comprehensive (apply_preprocessing d))
        (identify_actors_enhanced d)) := by
    rw [← genRequirements_eq d, hok]
    exact hmem
  exact goodReq_allGenerated _ _ (mem_cleanup_sub hmem2)

/-- C1 witness: a concrete input whose successful result holds one requirement,
on which the prefix and final-period invariant is checked. -/
theorem C1_prefix_invariant_witness :
    generate_snl_from_text (lc "it must run.") = GenResult.ok
      { snl_text := lc "The system shall run.."
        actors := []
        preprocessed_text := lc "it must run."
        sentences_count := 1
        formatted_sentences := lc "1. The system shall run.."
        requirements := [lc "The system shall run.."]
        original_sentences_processed := 1
        processing_stats :=
          { total_input_sentences := 1
            requirements_generated := 1
            unique_requirements := 1
            actors_identified := 0 } } ∧
    ((startsW (lc "The system shall run..") (lc "If ") = true ∨
      startsW (lc "The system shall run..") (lc "When ") = true ∨
      startsW (lc "The system shall run..") (lc "The system shall") = true) ∧
     endsW (lc "The system shall run..") (lc ".") = true) := by
  have hok : generate_snl_from_text (lc "it must run.") = GenResult.ok
      { snl_text := lc "The system shall run.."
        actors := []
        preprocessed_text := lc "it must run."
        sentences_count := 1
        formatted_sentences := lc "1. The system shall run.."
        requirements := [lc "The system shall run.."]
        original_sentences_processed := 1
        processing_stats :=
          { total_input_sentences := 1
            requirements_generated := 1
            unique_requirements := 1
            actors_identified := 0 } } := by decide
  exact ⟨hok, C1_prefix_invariant (lc "it must run.") _ (lc "The system shall run..")
    hok (by decide)⟩

/-!
C4 — deduplication and length filtering of the final requirements list.
-/

theorem mem_dedupFirstAux_sub {x : Txt} {seen l : List Txt}
    (h : x ∈ dedupFirstAux seen l) : x ∈ l := by
  induction l generalizing seen with
  | nil => simp [dedupFirstAux] at h
  | cons y ys ih =>
    unfold dedupFirstAux at h
    split at h
    · exact List.mem_cons_of_mem _ (ih h)
    · rcases List.mem_cons.mp h with rfl | h2
      · exact List.mem_cons_self _ _
      · exact List.mem_cons_of_mem _ (ih h2)

theorem mem_dedupFirstAux_not_seen {x : Txt} {seen l : List Txt}
    (h : x ∈ dedupFirstAux seen l) : x ∉ seen := by
  induction l generalizing seen with
  | nil => simp [dedupFirstAux] at h
  | cons y ys ih =>
    unfold dedupFirstAux at h
    split at h
    · exact ih h
    · next hns =>
      rcases List.mem_cons.mp h with rfl | h2
      · exact fun hx => hns (List.elem_iff.mpr hx)
      · intro hx
        exact ih h2 (List.mem_cons_of_mem _ hx)

theorem dedupFirstAux_nodup (seen l : List Txt) : (dedupFirstAux seen l).Nodup := by
  induction l generalizing seen with
  | nil => simp [dedupFirstAux]
  | cons y ys ih =>
    unfold dedupFirstAux
    split
    · exact ih seen
    · refine List.nodup_cons.mpr ⟨?_, ih (y :: seen)⟩
      intro hy
      exact mem_dedupFirstAux_not_seen hy (List.mem_cons_self _ _)

theorem cleanup_eq_dedup_filter (seen l : List Txt) :
    cleanupRequirementsAux seen l =
      dedupFirstAux seen (l.filter (fun req => decide (20 < req.length))) := by
  induction l generalizing seen with
  | nil => rfl
  | cons x xs ih =>
    by_cases hl : 20 < x.length
    · have hne : x.isEmpty = false := by
        cases x
        · simp at hl
        · rfl
      unfold cleanupRequirementsAux
      rw [List.filter_cons_of_pos (by simpa using hl)]
      unfold dedupFirstAux
      by_cases hs : seen.contains x
      · rw [if_neg (by simp [hne, List.elem_iff.mp hs]), if_pos hs]
        exact ih seen
      · rw [if_pos (by simp [hne, decide_eq_true hl]; simpa using hs),
          if_neg (by simpa using hs)]
        rw [ih (x :: seen)]
    · unfold cleanupRequirementsAux
      rw [List.filter_cons_of_neg (by simpa using hl)]
      rw [if_neg (by simp [hl])]
      exact ih seen

/-- C4: the requirements list of a successful result has no duplicate texts,
keeps only first occurrences in generation order (it equals the
first-occurrence deduplication of the generated list restricted to texts
longer than 20 characters), and every kept entry is longer than 20
characters. -/
theorem C4_dedup_and_length (d : Txt) (r : SNLResult)
    (hok : generate_snl_from_text d = GenResult.ok r) :
    r.requirements.Nodup ∧
    (∀ req ∈ r.requirements, 20 < req.length) ∧
    r.requirements =
      dedupFirst ((allGeneratedRequirements
        (extract_sentences_comprehensive (apply_preprocessing d))
        (identify_actors_enhanced d)).filter (fun req => decide (20 < req.length))) := by
  have hr : r.requirements = cleanupRequirements
      (allGeneratedRequirements
        (extract_sentences_comprehensive (apply_preprocessing d))
        (identify_actors_enhanced d)) := by
    rw [← genRequirements_eq d, hok]
    rfl
  have heq := cleanup_eq_dedup_filter []
    (allGeneratedRequirements
      (extract_sentences_comprehensive (apply_preprocessing d))
      (identify_actors_enhanced d))
  refine ⟨?_, ?_, ?_⟩
  · rw [hr]
    unfold cleanupRequirements
    rw [heq]
    exact dedupFirstAux_nodup _ _
  · intro req hm
    rw [hr] at hm
    unfold cleanupRequirements at hm
    rw [heq] at hm
    have := mem_dedupFirstAux_sub hm
    simpa using (List.mem_filter.mp this).2
  · rw [hr]
    unfold cleanupRequirements
    rw [heq]
    rfl

/-- C4 witness: the dedup-and-length properties checked on a concrete input
with one generated requirement. -/
theorem C4_dedup_and_length_witness :
    [lc "The system shall run.."].Nodup ∧
    (∀ req ∈ [lc "The system shall run.."], 20 < req.length) ∧
    [lc "The system shall run.."] =
      dedupFirst ((allGeneratedRequirements
        (extract_sentences_comprehensive (apply_preprocessing (lc "it must run.")))
        (identify_actors_enhanced (lc "it must run."))).filter
          (fun req => decide (20 < req.length))) := by
  have hok : generate_snl_from_text (lc "it must run.") = GenResult.ok
      { snl_text := lc "The system shall run.."
        actors := []
        preprocessed_text := lc "it must run."
        sentences_count := 1
        formatted_sentences := lc "1. The system shall run.."
        requirements := [lc "The system shall run.."]
        original_sentences_processed := 1
        processing_stats :=
          { total_input_sentences := 1
            requirements_generated := 1
            unique_requirements := 1
            actors_identified := 0 } } := by decide
  exact C4_dedup_and_length (lc "it must run.") _ hok

/-!
C6 — actor identification: vocabulary closure, sortedness, and the
`system` membership condition.
-/

theorem txtLtB_trans {a b c : Txt} (h1 : txtLtB a b = true) (h2 : txtLtB b c = true) :
    txtLtB a c = true := by
  induction a generalizing b c with
  | nil =>
    cases b with
    | nil => simp [txtLtB] at h1
    | cons y ys =>
      cases c with
      | nil => simp [txtLtB] at h2
      | cons z zs => simp [txtLtB]
  | cons x xs ih =>
    cases b with
    | nil => simp [txtLtB] at h1
    | cons y ys =>
      cases c with
      | nil => simp [txtLtB] at h2
      | cons z zs =>
        simp only [txtLtB, Bool.or_eq_true, Bool.and_eq_true, beq_iff_eq,
          decide_eq_true_eq] at h1 h2 ⊢
        rcases h1 with h1 | ⟨rfl, h1⟩
        · rcases h2 with h2 | ⟨rfl, h2⟩
          · exact Or.inl (by omega)
          · exact Or.inl h1
        · rcases h2 with h2 | ⟨rfl, h2⟩
          · exact Or.inl h2
          · exact Or.inr ⟨rfl, ih h1 h2⟩

theorem txtLtB_irrefl (a : Txt) : txtLtB a a = false := by
  induction a with
  | nil => rfl
  | cons x xs ih => simp [txtLtB, ih]

theorem txtLtB_total {a b : Txt} (h : ¬a = b) : txtLtB a b = true ∨ txtLtB b a = true := by
  induction a generalizing b with
  | nil =>
    cases b with
    | nil => exact absurd rfl h
    | cons y ys => exact Or.inl (by simp [txtLtB])
  | cons x xs ih =>
    cases b with
    | nil => exact Or.inr (by simp [txtLtB])
    | cons y ys =>
      by_cases hxy : x = y
      · subst hxy
        have hne : ¬xs = ys := fun hh => h (by rw [hh])
        rcases ih hne with h1 | h1
        · exact Or.inl (by simp [txtLtB, h1])
        · exact Or.inr (by simp [txtLtB, h1])
      · have hnn : ¬x.toNat = y.toNat := fun hh => hxy (charToNat_inj hh)
        rcases Nat.lt_or_ge x.toNat y.toNat with hlt | hge
        · exact Or.inl (by
            simp only [txtLtB, Bool.or_eq_true, decide_eq_true_eq]
            exact Or.inl hlt)
        · exact Or.inr (by
            simp only [txtLtB, Bool.or_eq_true, decide_eq_true_eq]
            exact Or.inl (by omega))

theorem mem_insertSorted {a x : Txt} {l : List Txt} :
    a ∈ insertSorted x l ↔ a = x ∨ a ∈ l := by
  induction l with
  | nil => simp [insertSorted]
  | cons y ys ih =>
    unfold insertSorted
    split
    · next hxy =>
        subst hxy
        simp [List.mem_cons]
    · split
      · simp [List.mem_cons]
      · simp only [List.mem_cons, ih]
        tauto

theorem insertSorted_sorted {x : Txt} {l : List Txt}
    (h : l.Pairwise (fun a b => txtLtB a b = true)) :
    (insertSorted x l).Pairwise (fun a b => txtLtB a b = true) := by
  induction l with
  | nil => simp [insertSorted]
  | cons y ys ih =>
    unfold insertSorted
    split
    · exact h
    · split
      · next hne hlt =>
        refine List.pairwise_cons.mpr ⟨?_, h⟩
        intro b hb
        rcases List.mem_cons.mp hb with rfl | hb2
        · exact hlt
        · exact txtLtB_trans hlt ((List.pairwise_cons.mp h).1 b hb2)
      · next hne hnlt =>
        have hyx : txtLtB y x = true := by
          rcases txtLtB_total hne with h1 | h1
          · exact absurd h1 (by simpa using hnlt)
          · exact h1
        refine List.pairwise_cons.mpr ⟨?_, ih (List.pairwise_cons.mp h).2⟩
        intro b hb
        rcases mem_insertSorted.mp hb with rfl | hb2
        · exact hyx
        · exact (List.pairwise_cons.mp h).1 b hb2

theorem mem_sortDedup_fold {a : Txt} (l : List Txt) (acc : List Txt) :
    a ∈ l.foldl (fun acc x => insertSorted x acc) acc ↔ a ∈ acc ∨ a ∈ l := by
  induction l generalizing acc with
  | nil => simp
  | cons x xs ih =>
    simp only [List.foldl_cons, ih, mem_insertSorted, List.mem_cons]
    tauto

theorem mem_sortDedup {a : Txt} (l : List Txt) : a ∈ sortDedup l ↔ a ∈ l := by
  unfold sortDedup
  rw [mem_sortDedup_fold]
  simp

theorem sortDedup_fold_sorted (l : List Txt) (acc : List Txt)
    (h : acc.Pairwise (fun a b => txtLtB a b = true)) :
    (l.foldl (fun acc x => insertSorted x acc) acc).Pairwise
      (fun a b => txtLtB a b = true) := by
  induction l generalizing acc with
  | nil => simpa using h
  | cons x xs ih => exact ih _ (insertSorted_sorted h)

theorem sortDedup_sorted (l : List Txt) :
    (sortDedup l).Pairwise (fun a b => txtLtB a b = true) :=
  sortDedup_fold_sorted l [] (by simp)

theorem sortDedup_nodup (l : List Txt) : (sortDedup l).Nodup :=
  (sortDedup_sorted l).imp (fun hab => by
    intro heq
    subst heq
    simp [txtLtB_irrefl] at hab)

theorem actors_subset_vocab (d : Txt) :
    ∀ a ∈ identify_actors_enhanced d, a ∈ valid_actors := by
  intro a ha
  unfold identify_actors_enhanced at ha
  rw [mem_sortDedup] at ha
  rcases List.mem_append.mp ha with hw | hk
  · obtain ⟨w, _, hsome⟩ := List.mem_filterMap.mp hw
    by_cases hc : valid_actors.contains (cleanActorWord w) = true
    · simp only [hc, if_true] at hsome
      cases hsome
      exact List.elem_iff.mp hc
    · simp [hc] at hsome
      rw [← hsome.2]
      exact hsome.1
  · simp only [List.mem_append] at hk
    rcases hk with ((((hk | hk) | hk) | hk) | hk) | hk
    all_goals split at hk
    all_goals first
      | (rw [List.mem_singleton] at hk; subst hk; decide)
      | cases hk

theorem system_mem_wordActors (d : Txt) :
    lc "system" ∈ (splitWs (lowerTxt d)).filterMap (fun w =>
      let cw := cleanActorWord w
      if valid_actors.contains cw = true then some cw else none) ↔
    ∃ w ∈ splitWs (lowerTxt d), cleanActorWord w = lc "system" := by
  constructor
  · intro h
    obtain ⟨w, hw, hsome⟩ := List.mem_filterMap.mp h
    refine ⟨w, hw, ?_⟩
    by_cases hc : valid_actors.contains (cleanActorWord w) = true
    · simp only [hc, if_true] at hsome
      exact Option.some.inj hsome
    · simp [hc] at hsome
      exact hsome.2
  · rintro ⟨w, hw, hcw⟩
    refine List.mem_filterMap.mpr ⟨w, hw, ?_⟩
    rw [hcw]
    rfl

theorem C6_system_keyword (d : Txt) :
    lc "system" ∈
      ((if containsSub (lowerTxt d) (lc "system") = true then [lc "system"] else []) ++
       (if containsSub (lowerTxt d) (lc "user") = true then [lc "user"] else []) ++
       (if containsSub (lowerTxt d) (lc "member") = true then [lc "member"] else []) ++
       (if containsSub (lowerTxt d) (lc "librarian") = true then [lc "librarian"] else []) ++
       (if (containsSub (lowerTxt d) (lc "administrator") ||
            containsSub (lowerTxt d) (lc "admin")) = true
          then [lc "administrator"] else []) ++
       (if containsSub (lowerTxt d) (lc "guest") = true then [lc "guest"] else [])) ↔
    containsSub (lowerTxt d) (lc "system") = true := by
  constructor
  · intro hk
    simp only [List.mem_append] at hk
    rcases hk with ((((hk | hk) | hk) | hk) | hk) | hk
    all_goals split at hk
    all_goals first
      | (rw [List.mem_singleton] at hk
         first
           | assumption
           | (exact absurd hk (by decide)))
      | cases hk
  · intro hc
    simp [hc]

/-- C6 (amended): the returned actor list is a subset of the configured
vocabulary, strictly sorted ascending (hence duplicate-free), and contains
`system` if and only if the substring `system` occurs in the lowercased input
or some whitespace-delimited word of the lowercased input equals `system`
after removal of its non-letter characters. -/
theorem C6_actor_closure (d : Txt) :
    (∀ a ∈ identify_actors_enhanced d, a ∈ valid_actors) ∧
    (identify_actors_enhanced d).Pairwise (fun a b => txtLtB a b = true) ∧
    (identify_actors_enhanced d).Nodup ∧
    (lc "system" ∈ identify_actors_enhanced d ↔
      containsSub (lowerTxt d) (lc "system") = true ∨
      ∃ w ∈ splitWs (lowerTxt d), cleanActorWord w = lc "system") := by
  refine ⟨actors_subset_vocab d, ?_, ?_, ?_⟩
  · exact sortDedup_sorted _
  · exact sortDedup_nodup _
  · unfold identify_actors_enhanced
    rw [mem_sortDedup, List.mem_append, system_mem_wordActors d]
    rw [C6_system_keyword d]
    constructor
    · rintro (hw | hk)
      · exact Or.inr hw
      · exact Or.inl hk
    · rintro (hc | hw)
      · exact Or.inr hc
      · exact Or.inl hw

/-- C6 counterexample: on the input `sy-stem` the actor list contains
`system` although the substring `system` does not occur in the lowercased
input, refuting the claimed biconditional (the word `sy-stem` matches after
its non-letter characters are removed). -/
theorem C6_actor_closure_cex :
    identify_actors_enhanced (lc "sy-stem") = [lc "system"] ∧
    containsSub (lowerTxt (lc "sy-stem")) (lc "system") = false := by
  exact ⟨by decide, by decide⟩

/-!
C7 — condition extraction of the Conditional template.
-/

/-- The part of `l` strictly before the first occurrence of `sep` (all of `l`
when `sep` does not occur); describes `parts[0]` of a Python `split`. -/
def beforeFirst (sep : Txt) : Txt → Txt
  | [] => []
  | c :: cs =>
    if sep.isPrefixOf (c :: cs) && !sep.isEmpty then []
    else c :: beforeFirst sep cs

theorem splitAux_head (sep l : Txt) (acc : Txt) :
    (splitAux sep l 0 acc).head? = some (acc.reverse ++ beforeFirst sep l) := by
  induction l generalizing acc with
  | nil => simp [splitAux, beforeFirst]
  | cons c cs ih =>
    unfold splitAux beforeFirst
    split
    · simp
    · rw [ih (c :: acc)]
      simp

theorem splitAux_len1 (sep l : Txt) (skip : Nat) (acc : Txt) :
    1 ≤ (splitAux sep l skip acc).length := by
  induction l generalizing skip acc with
  | nil => simp [splitAux]
  | cons c cs ih =>
    cases skip with
    | zero =>
      unfold splitAux
      split
      · simp
      · exact ih 0 (c :: acc)
    | succ n =>
      unfold splitAux
      exact ih n acc

theorem splitAux_len2 (sep l : Txt) (acc : Txt) (hsep : sep.isEmpty = false)
    (h : containsSub l sep = true) : 2 ≤ (splitAux sep l 0 acc).length := by
  induction l generalizing acc with
  | nil => simp [containsSub, hsep] at h
  | cons c cs ih =>
    unfold splitAux
    unfold containsSub at h
    rcases Bool.or_eq_true _ _ |>.mp h with hp | hc
    · rw [if_pos (by simp [hp, hsep])]
      have := splitAux_len1 sep cs (sep.length - 1) []
      simp
      omega
    · split
      · have := splitAux_len1 sep cs (sep.length - 1) []
        simp
        omega
      · exact ih (c :: acc) hc

theorem then_sub_of_spaced {l : Txt} (h : containsSub l (lc " then ") = true) :
    containsSub l (lc "then") = true := by
  obtain ⟨u, v, rfl⟩ := (containsSub_iff _ _).mp h
  refine (containsSub_iff _ _).mpr ⟨u ++ lc " ", lc " " ++ v, ?_⟩
  simp [List.append_assoc]
  rfl

/-- C7 (amended): for a sentence whose lowercased text contains `if` and
` then `, the Conditional template emits
`If {condition}, then the system shall {tail}` where the condition is the part
of the lowercased sentence left of the first ` then ` with EVERY occurrence of
the substring `if` removed (not only a leading one) and surrounding whitespace
stripped. -/
theorem C7_conditional_condition (s : Txt)
    (hif : containsSub (lowerTxt s) (lc "if") = true)
    (hthen : containsSub (lowerTxt s) (lc " then ") = true) :
    ∃ tail, process_conditional_template s =
      lc "If " ++
        stripTxt (replaceSub (lc "if") [] (beforeFirst (lc " then ") (lowerTxt s))) ++
        lc ", then the system shall " ++ tail := by
  have hthen' : containsSub (lowerTxt s) (lc "then") = true := then_sub_of_spaced hthen
  have hlen := splitAux_len2 (lc " then ") (lowerTxt s) [] (by decide) hthen
  have hhead := splitAux_head (lc " then ") (lowerTxt s) []
  obtain ⟨x, t, heq⟩ : ∃ x t, splitOnSub (lc " then ") (lowerTxt s) = x :: t := by
    cases hl : splitOnSub (lc " then ") (lowerTxt s) with
    | nil =>
      unfold splitOnSub at hl
      rw [hl] at hlen
      simp at hlen
    | cons x t => exact ⟨x, t, rfl⟩
  obtain ⟨y, rest, heq2⟩ : ∃ y rest, t = y :: rest := by
    cases ht : t with
    | nil =>
      unfold splitOnSub at heq
      rw [heq, ht] at hlen
      simp at hlen
    | cons y rest => exact ⟨y, rest, rfl⟩
  subst heq2
  have hx : x = beforeFirst (lc " then ") (lowerTxt s) := by
    unfold splitOnSub at heq
    rw [heq] at hhead
    simpa using hhead
  unfold process_conditional_template
  rw [if_pos (by simp [hif, hthen'])]
  rw [heq]
  simp only [List.get?_cons_succ, List.get?_cons_zero, List.headD_cons]
  split
  · refine ⟨reinsertLeadVerb (stripTxt (removeSystemAll
      (stripTxt (stripLeadSystemModal (stripTxt y))))) ++ lc ".", ?_⟩
    rw [hx]
    simp [List.append_assoc]
  · refine ⟨lc "respond appropriately.", ?_⟩
    rw [hx]
    rw [show lc ", then the system shall respond appropriately." =
      lc ", then the system shall " ++ lc "respond appropriately." from rfl]
    simp [List.append_assoc]

/-- C7 witness: on a concrete conditional sentence the hypotheses hold and the
emitted condition is the left part with all `if` substrings removed. -/
theorem C7_conditional_condition_witness :
    (containsSub (lowerTxt (lc "if the gift is ready then it stops")) (lc "if") = true) ∧
    (containsSub (lowerTxt (lc "if the gift is ready then it stops")) (lc " then ") = true) ∧
    ∃ tail, process_conditional_template (lc "if the gift is ready then it stops") =
      lc "If " ++
        stripTxt (replaceSub (lc "if") []
          (beforeFirst (lc " then ") (lowerTxt (lc "if the gift is ready then it stops")))) ++
        lc ", then the system shall " ++ tail :=
  ⟨by decide, by decide,
    C7_conditional_condition (lc "if the gift is ready then it stops") (by decide) (by decide)⟩

/-- C7 counterexample: the left part of `if the gift is ready then it stops`
is `if the gift is ready`; stripping only its leading `if` would give the
condition `the gift is ready`, but the code removes every occurrence of `if`
(also inside `gift`) and emits `the gt is ready`. -/
theorem C7_conditional_condition_cex :
    process_conditional_template (lc "if the gift is ready then it stops") =
      lc "If the gt is ready, then the system shall it stops." ∧
    ¬(process_conditional_template (lc "if the gift is ready then it stops") =
      lc "If the gift is ready, then the system shall it stops.") := by
  exact ⟨by decide, by decide⟩

/-!
C8 — the Modal template remainder.
-/

/-- C8 counterexample: in `it must run so it should stop` the first modal verb
occurring in the sentence is `must`, so the claim predicts
`The system shall ( )run so it should stop.`; the code instead searches the
fixed list order (`should` first), finds `should`, and emits
`The system shall stop.`. -/
theorem C8_modal_remainder_cex :
    process_modal_template (lc "it must run so it should stop") =
      lc "The system shall stop." ∧
    ¬(process_modal_template (lc "it must run so it should stop") =
      lc "The system shall run so it should stop.") ∧
    ¬(process_modal_template (lc "it must run so it should stop") =
      lc "The system shall  run so it should stop.") := by
  exact ⟨by decide, by decide, by decide⟩

/-- C8 (amended): the Modal template emits `The system shall {remainder}.`
where the chosen modal is the first entry of the fixed search list
(should, must, can, will, shall, may, could, would) that occurs anywhere in
the lowercased sentence — not the modal whose occurrence is earliest in the
sentence — and the remainder is the sentence text after that modal's first
occurrence, stripped of surrounding whitespace. -/
theorem C8_modal_remainder (s m : Txt) (idx : Nat)
    (hm : firstContained modals_process (lowerTxt s) = some m)
    (hidx : findSub (lowerTxt s) m = some idx) :
    process_modal_template s =
      lc "The system shall " ++ stripTxt (s.drop (idx + m.length)) ++ lc "." := by
  simp only [process_modal_template, hm, hidx]

/-- C8 witness: the amended remainder rule checked on a concrete sentence
(`should` is chosen over the positionally earlier `must`). -/
theorem C8_modal_remainder_witness :
    firstContained modals_process (lowerTxt (lc "it must run so it should stop")) =
      some (lc "should") ∧
    findSub (lowerTxt (lc "it must run so it should stop")) (lc "should") = some 18 ∧
    process_modal_template (lc "it must run so it should stop") =
      lc "The system shall " ++
        stripTxt ((lc "it must run so it should stop").drop (18 + (lc "should").length)) ++
        lc "." :=
  ⟨by decide, by decide,
    C8_modal_remainder (lc "it must run so it should stop") (lc "should") 18
      (by decide) (by decide)⟩

/-!
C2 — totality of generation.
-/

/-- C2: for every non-empty input text, `generate_snl_from_text` returns
either a success result or an error result carrying a message; in this
embedding every step of the source's `try` body is a total function (the one
possibly-raising operation, `parts[1]`, is guarded by an inner handler), so
the top-level `except` handler is unreachable and the outcome is always a
success result. -/
theorem C2_generate_total (d : Txt) (_h : d ≠ []) :
    (∃ r, generate_snl_from_text d = GenResult.ok r) ∨
    (∃ msg, generate_snl_from_text d = GenResult.err msg) := by
  exact Or.inl ⟨_, rfl⟩

/-- C2 witness: totality instantiated at a concrete non-empty input. -/
theorem C2_generate_total_witness :
    (lc "it must run.") ≠ [] ∧
    ((∃ r, generate_snl_from_text (lc "it must run.") = GenResult.ok r) ∨
     (∃ msg, generate_snl_from_text (lc "it must run.") = GenResult.err msg)) :=
  ⟨by decide, C2_generate_total (lc "it must run.") (by decide)⟩

/-!
C5 — idempotence of the text normalizer: infrastructure lemmas.
-/

theorem map_eq_self_of_eq {l : Txt} {f : Char → Char} (h : ∀ a ∈ l, f a = a) :
    l.map f = l := by
  induction l with
  | nil => rfl
  | cons c cs ih =>
    simp only [List.map_cons, h c (List.mem_cons_self c cs)]
    rw [ih (fun a ha => h a (List.mem_cons_of_mem c ha))]

theorem mem_of_prefB {a : Char} {p s : Txt} (hp : p.isPrefixOf s = true) (ha : a ∈ p) :
    a ∈ s := by
  obtain ⟨t, rfl⟩ := (prefB_iff p s).mp hp
  exact List.mem_append.mpr (Or.inl ha)

theorem replAux_eq_self {c0 : Char} {p r s : Txt} (hc : c0 ∈ p) (hs : c0 ∉ s) :
    replAux p r s 0 = s := by
  induction s with
  | nil => rfl
  | cons c cs ih =>
    unfold replAux
    rw [if_neg]
    · rw [ih (fun h => hs (List.mem_cons_of_mem c h))]
    · intro hcond
      exact hs (mem_of_prefB (Bool.and_eq_true _ _ |>.mp hcond).1 hc)

theorem replaceSub_eq_self (c0 : Char) {p r s : Txt} (hc : c0 ∈ p) (hs : c0 ∉ s) :
    replaceSub p r s = s := replAux_eq_self hc hs

theorem mem_replAux {a : Char} {p r s : Txt} {k : Nat}
    (h : a ∈ replAux p r s k) : a ∈ s ∨ a ∈ r := by
  induction s generalizing k with
  | nil => simp [replAux] at h
  | cons c cs ih =>
    cases k with
    | succ n =>
      unfold replAux at h
      rcases ih h with h2 | h2
      · exact Or.inl (List.mem_cons_of_mem c h2)
      · exact Or.inr h2
    | zero =>
      unfold replAux at h
      split at h
      · rcases List.mem_append.mp h with h2 | h2
        · exact Or.inr h2
        · rcases ih h2 with h3 | h3
          · exact Or.inl (List.mem_cons_of_mem c h3)
          · exact Or.inr h3
      · rcases List.mem_cons.mp h with rfl | h2
        · exact Or.inl (List.mem_cons_self _ _)
        · rcases ih h2 with h3 | h3
          · exact Or.inl (List.mem_cons_of_mem c h3)
          · exact Or.inr h3

theorem contrFold_chars (P : Char → Prop) (ps : List (Txt × Txt)) (t : Txt)
    (ht : ∀ c ∈ t, P c) (hr : ∀ pr ∈ ps, ∀ c ∈ pr.2, P c) :
    ∀ c ∈ ps.foldl (fun t pr => replaceSub pr.1 pr.2 t) t, P c := by
  induction ps generalizing t with
  | nil => exact ht
  | cons q qs ih =>
    simp only [List.foldl_cons]
    refine ih _ ?_ (fun pr hpr => hr pr (List.mem_cons_of_mem q hpr))
    intro c hc
    rcases mem_replAux hc with h2 | h2
    · exact ht c h2
    · exact hr q (List.mem_cons_self _ _) c h2

theorem contrFold_eq_self (c0 : Char) {ps : List (Txt × Txt)} {t : Txt}
    (hp : ∀ pr ∈ ps, c0 ∈ pr.1) (hs : c0 ∉ t) :
    ps.foldl (fun t pr => replaceSub pr.1 pr.2 t) t = t := by
  induction ps with
  | nil => rfl
  | cons q qs ih =>
    simp only [List.foldl_cons]
    rw [replaceSub_eq_self c0 (hp q (List.mem_cons_self _ _)) hs]
    exact ih (fun pr hpr => hp pr (List.mem_cons_of_mem q hpr))

theorem mem_squeezeWs {a : Char} {s : Txt} (h : a ∈ squeezeWs s) : a ∈ s ∨ a = ' ' := by
  induction s with
  | nil => simp [squeezeWs] at h
  | cons c cs ih =>
    cases cs with
    | nil =>
      simp only [squeezeWs, List.mem_singleton] at h
      split at h
      · exact Or.inr h
      · exact Or.inl (h ▸ List.mem_cons_self _ _)
    | cons d rest =>
      unfold squeezeWs at h
      split at h
      · rcases ih h with h2 | h2
        · exact Or.inl (List.mem_cons_of_mem c h2)
        · exact Or.inr h2
      · rcases List.mem_cons.mp h with h2 | h2
        · split at h2
          · exact Or.inr h2
          · exact Or.inl (h2 ▸ List.mem_cons_self _ _)
        · rcases ih h2 with h3 | h3
          · exact Or.inl (List.mem_cons_of_mem c h3)
          · exact Or.inr h3

theorem squeezeWs_ws_space {a : Char} {s : Txt} (h : a ∈ squeezeWs s)
    (hws : isWsChar a = true) : a = ' ' := by
  induction s with
  | nil => simp [squeezeWs] at h
  | cons c cs ih =>
    cases cs with
    | nil =>
      simp only [squeezeWs, List.mem_singleton] at h
      split at h
      · exact h
      · next hn => exact absurd (h ▸ hws) (by simpa using hn)
    | cons d rest =>
      unfold squeezeWs at h
      split at h
      · exact ih h
      · rcases List.mem_cons.mp h with h2 | h2
        · split at h2
          · exact h2
          · next hn => exact absurd (h2 ▸ hws) (by simpa using hn)
        · exact ih h2

theorem dropEndIf_front (q : Char → Bool) (s : Txt) : ∃ t, dropEndIf q s ++ t = s := by
  induction s with
  | nil => exact ⟨[], rfl⟩
  | cons c cs ih =>
    obtain ⟨t, ht⟩ := ih
    rcases hd : dropEndIf q cs with _ | ⟨d, ds⟩
    · rw [show dropEndIf q (c :: cs) = if q c then [] else [c] from by
        unfold dropEndIf
        rw [hd]]
      by_cases hq : q c = true
      · rw [if_pos hq]
        exact ⟨c :: cs, rfl⟩
      · rw [if_neg hq]
        exact ⟨cs, rfl⟩
    · rw [show dropEndIf q (c :: cs) = c :: d :: ds from by
        unfold dropEndIf
        rw [hd]]
      rw [hd] at ht
      exact ⟨t, by simpa using ht⟩

theorem mem_dropEndIf {a : Char} {q : Char → Bool} {s : Txt} (h : a ∈ dropEndIf q s) :
    a ∈ s := by
  obtain ⟨t, ht⟩ := dropEndIf_front q s
  rw [← ht]
  exact List.mem_append.mpr (Or.inl h)

theorem dropWhile_back (p : Char → Bool) (s : Txt) : ∃ t, t ++ s.dropWhile p = s := by
  induction s with
  | nil => exact ⟨[], rfl⟩
  | cons c cs ih =>
    by_cases hc : p c = true
    · obtain ⟨t, ht⟩ := ih
      refine ⟨c :: t, ?_⟩
      rw [List.dropWhile_cons_of_pos hc]
      simpa using ht
    · refine ⟨[], ?_⟩
      rw [List.dropWhile_cons_of_neg hc]
      rfl

theorem mem_stripTxt {a : Char} {s : Txt} (h : a ∈ stripTxt s) : a ∈ s := by
  unfold stripTxt at h
  have h2 := mem_dropEndIf h
  obtain ⟨t, ht⟩ := dropWhile_back isWsChar s
  rw [← ht]
  exact List.mem_append.mpr (Or.inr h2)

/-- No two adjacent whitespace characters occur in the text. -/
def noAdjWs : Txt → Prop
  | [] => True
  | [_] => True
  | a :: b :: t => ¬(isWsChar a = true ∧ isWsChar b = true) ∧ noAdjWs (b :: t)

theorem noAdjWs_tail {c : Char} {t : Txt} (h : noAdjWs (c :: t)) : noAdjWs t := by
  cases t with
  | nil => trivial
  | cons d ds => exact h.2

theorem noAdjWs_append_right {a b : Txt} (h : noAdjWs (a ++ b)) : noAdjWs b := by
  induction a with
  | nil => exact h
  | cons x xs ih => exact ih (noAdjWs_tail h)

theorem noAdjWs_append_left {a b : Txt} (h : noAdjWs (a ++ b)) : noAdjWs a := by
  induction a with
  | nil => trivial
  | cons x xs ih =>
    cases xs with
    | nil => trivial
    | cons y ys =>
      exact ⟨h.1, ih (noAdjWs_tail h)⟩

theorem noAdjWs_cons {a : Char} {L : Txt}
    (hhead : ∀ b, L.head? = some b → ¬(isWsChar a = true ∧ isWsChar b = true))
    (hL : noAdjWs L) : noAdjWs (a :: L) := by
  cases L with
  | nil => trivial
  | cons b t => exact ⟨hhead b rfl, hL⟩

theorem squeezeWs_head_nonws {d : Char} {rest : Txt} (hd : ¬isWsChar d = true) :
    (squeezeWs (d :: rest)).head? = some d := by
  cases rest with
  | nil => simp [squeezeWs, hd]
  | cons e r =>
    unfold squeezeWs
    rw [if_neg (by simp [hd])]
    simp [hd]

theorem noAdjWs_squeezeWs (s : Txt) : noAdjWs (squeezeWs s) := by
  induction s with
  | nil => trivial
  | cons c cs ih =>
    cases cs with
    | nil =>
      simp only [squeezeWs]
      trivial
    | cons d rest =>
      unfold squeezeWs
      split
      · exact ih
      · next hcond =>
        refine noAdjWs_cons ?_ ih
        intro b hb
        by_cases hdws : isWsChar d = true
        · have hcws : ¬isWsChar c = true := by
            intro hc
            exact hcond (by simp [hc, hdws])
          rw [if_neg hcws]
          exact fun hh => hcws hh.1
        · rw [squeezeWs_head_nonws hdws] at hb
          cases hb
          exact fun hh => hdws hh.2

theorem dropWhile_head_not {p : Char → Bool} {s : Txt} {c : Char}
    (h : (s.dropWhile p).head? = some c) : p c = false := by
  induction s with
  | nil => simp [List.dropWhile] at h
  | cons x xs ih =>
    by_cases hx : p x = true
    · rw [List.dropWhile_cons_of_pos hx] at h
      exact ih h
    · rw [List.dropWhile_cons_of_neg hx] at h
      cases h
      simpa using hx

theorem dropEndIf_last_not {q : Char → Bool} {s : Txt} {c : Char}
    (h : (dropEndIf q s).getLast? = some c) : q c = false := by
  induction s with
  | nil => simp [dropEndIf] at h
  | cons x xs ih =>
    rcases hd : dropEndIf q xs with _ | ⟨d, ds⟩
    · rw [show dropEndIf q (x :: xs) = if q x then [] else [x] from by
        unfold dropEndIf
        rw [hd]] at h
      by_cases hq : q x = true
      · rw [if_pos hq] at h
        simp at h
      · rw [if_neg hq] at h
        cases h
        simpa using hq
    · rw [show dropEndIf q (x :: xs) = x :: d :: ds from by
        unfold dropEndIf
        rw [hd]] at h
      rw [List.getLast?_cons_cons] at h
      rw [← hd] at h
      exact ih h

theorem head_of_front {b t s : Txt} (hbt : b ++ t = s) {c : Char}
    (hb : b.head? = some c) : s.head? = some c := by
  cases b with
  | nil => cases hb
  | cons x xs =>
    cases hbt
    cases hb
    rfl

theorem dropWhile_eq_self_of_head {p : Char → Bool} {s : Txt}
    (h : ∀ c, s.head? = some c → p c = false) : s.dropWhile p = s := by
  cases s with
  | nil => rfl
  | cons x xs => exact List.dropWhile_cons_of_neg (by simp [h x rfl])

theorem dropEndIf_eq_self_of_last {q : Char → Bool} {s : Txt}
    (h : ∀ c, s.getLast? = some c → q c = false) : dropEndIf q s = s := by
  induction s with
  | nil => rfl
  | cons x xs ih =>
    cases xs with
    | nil =>
      have hx := h x rfl
      unfold dropEndIf
      simp [dropEndIf, hx]
    | cons y ys =>
      have htail : dropEndIf q (y :: ys) = y :: ys := by
        refine ih ?_
        intro c hc
        refine h c ?_
        rw [List.getLast?_cons_cons]
        exact hc
      unfold dropEndIf
      rw [htail]

theorem stripTxt_eq_self {s : Txt}
    (hhead : ∀ c, s.head? = some c → isWsChar c = false)
    (hlast : ∀ c, s.getLast? = some c → isWsChar c = false) : stripTxt s = s := by
  unfold stripTxt
  rw [dropWhile_eq_self_of_head hhead]
  exact dropEndIf_eq_self_of_last hlast

theorem squeezeWs_eq_self {s : Txt} (h1 : ∀ c ∈ s, isWsChar c = true → c = ' ')
    (h2 : noAdjWs s) : squeezeWs s = s := by
  induction s with
  | nil => rfl
  | cons c cs ih =>
    cases cs with
    | nil =>
      simp only [squeezeWs]
      by_cases hc : isWsChar c = true
      · rw [if_pos hc, h1 c (List.mem_cons_self _ _) hc]
      · rw [if_neg hc]
    | cons d rest =>
      unfold squeezeWs
      rw [if_neg (by
        intro hcond
        exact h2.1 (by simpa using hcond))]
      rw [ih (fun a ha hw => h1 a (List.mem_cons_of_mem c ha) hw) (noAdjWs_tail h2)]
      by_cases hc : isWsChar c = true
      · rw [if_pos hc, h1 c (List.mem_cons_self _ _) hc]
      · rw [if_neg hc]

theorem notUpper_lowerChar (c : Char) :
    ¬(65 ≤ (lowerChar c).toNat ∧ (lowerChar c).toNat ≤ 90) := by
  by_cases h : 65 ≤ c.toNat ∧ c.toNat ≤ 90
  · have := toNat_lowerChar_upper c h
    omega
  · rw [lowerChar_eq_self c h]
    exact h

theorem preprocessed_fixed (w : Txt)
    (hw : ∀ c ∈ w, allowedChar c = true)
    (hnu : ∀ c ∈ w, ¬(65 ≤ c.toNat ∧ c.toNat ≤ 90)) :
    apply_preprocessing (stripTxt (squeezeWs w)) = stripTxt (squeezeWs w) := by
  have hmem : ∀ c ∈ stripTxt (squeezeWs w), c ∈ w ∨ c = ' ' := by
    intro c hc
    exact mem_squeezeWs (mem_stripTxt hc)
  have hAllowed : ∀ c ∈ stripTxt (squeezeWs w), allowedChar c = true := by
    intro c hc
    rcases hmem c hc with h | rfl
    · exact hw c h
    · decide
  have hNotUp : ∀ c ∈ stripTxt (squeezeWs w), ¬(65 ≤ c.toNat ∧ c.toNat ≤ 90) := by
    intro c hc
    rcases hmem c hc with h | rfl
    · exact hnu c h
    · decide
  have hWsSp : ∀ c ∈ stripTxt (squeezeWs w), isWsChar c = true → c = ' ' := by
    intro c hc hws
    exact squeezeWs_ws_space (mem_stripTxt hc) hws
  have hNoAdj : noAdjWs (stripTxt (squeezeWs w)) := by
    have h1 : noAdjWs (squeezeWs w) := noAdjWs_squeezeWs w
    obtain ⟨t1, ht1⟩ := dropWhile_back isWsChar (squeezeWs w)
    have h2 : noAdjWs ((squeezeWs w).dropWhile isWsChar) :=
      noAdjWs_append_right (ht1 ▸ h1)
    obtain ⟨t2, ht2⟩ := dropEndIf_front isWsChar ((squeezeWs w).dropWhile isWsChar)
    exact noAdjWs_append_left (ht2 ▸ h2)
  have hHead : ∀ c, (stripTxt (squeezeWs w)).head? = some c → isWsChar c = false := by
    intro c hc
    obtain ⟨t2, ht2⟩ := dropEndIf_front isWsChar ((squeezeWs w).dropWhile isWsChar)
    exact dropWhile_head_not (head_of_front ht2 hc)
  have hLast : ∀ c, (stripTxt (squeezeWs w)).getLast? = some c → isWsChar c = false := by
    intro c hc
    exact dropEndIf_last_not hc
  have e1 : lowerTxt (stripTxt (squeezeWs w)) = stripTxt (squeezeWs w) := by
    refine map_eq_self_of_eq ?_
    intro a ha
    exact lowerChar_eq_self a (hNotUp a ha)
  have e2 : replaceSub (lc "&") (lc "and") (stripTxt (squeezeWs w)) =
      stripTxt (squeezeWs w) := by
    refine replaceSub_eq_self '&' (by decide) ?_
    intro h
    exact absurd (hAllowed _ h) (by decide)
  have e3 : contractions.foldl (fun t pr => replaceSub pr.1 pr.2 t)
      (stripTxt (squeezeWs w)) = stripTxt (squeezeWs w) := by
    refine contrFold_eq_self apos (by decide) ?_
    intro h
    exact absurd (hAllowed _ h) (by decide)
  have e4 : (stripTxt (squeezeWs w)).filter allowedChar = stripTxt (squeezeWs w) :=
    List.filter_eq_self.mpr hAllowed
  have e5 : squeezeWs (stripTxt (squeezeWs w)) = stripTxt (squeezeWs w) :=
    squeezeWs_eq_self hWsSp hNoAdj
  have e6 : stripTxt (stripTxt (squeezeWs w)) = stripTxt (squeezeWs w) :=
    stripTxt_eq_self hHead hLast
  calc apply_preprocessing (stripTxt (squeezeWs w))
      = stripTxt (squeezeWs ((contractions.foldl (fun t pr => replaceSub pr.1 pr.2 t)
          (replaceSub (lc "&") (lc "and")
            (lowerTxt (stripTxt (squeezeWs w))))).filter allowedChar)) := rfl
    _ = stripTxt (squeezeWs w) := by rw [e1, e2, e3, e4, e5, e6]

/-- C5: text normalization is idempotent — applying `apply_preprocessing`
twice yields exactly the same string as applying it once. -/
theorem C5_normalizer_idempotent (x : Txt) :
    apply_preprocessing (apply_preprocessing x) = apply_preprocessing x := by
  have hx : apply_preprocessing x =
      stripTxt (squeezeWs ((contractions.foldl (fun t pr => replaceSub pr.1 pr.2 t)
        (replaceSub (lc "&") (lc "and") (lowerTxt x))).filter allowedChar)) := rfl
  rw [hx]
  refine preprocessed_fixed _ ?_ ?_
  · intro c hc
    exact (List.mem_filter.mp hc).2
  · intro c hc
    have hcz := (List.mem_filter.mp hc).1
    refine contrFold_chars (fun a => ¬(65 ≤ a.toNat ∧ a.toNat ≤ 90)) contractions _
      ?_ ?_ c hcz
    · intro a ha
      rcases mem_replAux ha with h2 | h2
      · obtain ⟨b, _, rfl⟩ := List.mem_map.mp h2
        exact notUpper_lowerChar b
      · exact (by decide :
          ∀ a ∈ lc "and", ¬(65 ≤ a.toNat ∧ a.toNat ≤ 90)) a h2
    · exact (by decide :
        ∀ pr ∈ contractions, ∀ a ∈ pr.2, ¬(65 ≤ a.toNat ∧ a.toNat ≤ 90))
